import Mathlib

/-!
Shallow embedding of the token-lifecycle core of the `crush` GitHub Copilot
OAuth integration, together with theorems settling the specification claims.

Source files embedded here:
  - `internal/oauth/token.go`   (the long-lived OAuth `Token` value type)
  - `internal/oauth/copilot/oauth.go` (CopilotToken, PollForToken, ExchangeForCopilotToken)
  - the Copilot caching `Transport` (RoundTrip / getValidToken / ClearCache)

Time is passed explicitly: everywhere the Go code reads `time.Now().Unix()`
the embedding takes a `now : Int` parameter.  Go machine integers here are
`int64`/`int` values used as Unix timestamps and second counts; they stay far
from overflow, so they are carried as `Int`, with Go's truncated division
written `Int.tdiv`.
-/

namespace Crush

/-- Long-lived OAuth token record (`oauth.Token` in `internal/oauth/token.go`).
`copilotToken` / `copilotExpiresAt` mirror the persisted short-lived Copilot
token fields. -/
structure Token where
  accessToken : String
  refreshToken : String
  expiresIn : Int
  expiresAt : Int
  copilotToken : String
  copilotExpiresAt : Int
  deriving Repr, DecidableEq

/-- Embeds `Token.IsExpired` (token.go): `time.Now().Unix() >= t.ExpiresAt -
int64(t.ExpiresIn)/10`.  The Go method performs no nil-receiver or
empty-value check. -/
def Token.IsExpired (t : Token) (now : Int) : Bool :=
  now ≥ t.expiresAt - Int.tdiv t.expiresIn 10

/-- Embeds `Token.IsCopilotTokenExpired` (token.go).  The Go receiver is a
pointer that is checked against nil, so the embedding takes an `Option`. -/
def Token.IsCopilotTokenExpired (t : Option Token) (now : Int) : Bool :=
  match t with
  | none => true
  | some tk =>
    if tk.copilotToken = "" then true
    else now ≥ tk.copilotExpiresAt - 60

/-- Short-lived Copilot API token (`CopilotToken` in copilot/oauth.go). -/
structure CopilotToken where
  token : String
  expiresAt : Int
  deriving Repr, DecidableEq

/-- Embeds `CopilotToken.IsExpired` (copilot/oauth.go).  The Go receiver is a
pointer checked against nil, so the embedding takes an `Option`. -/
def CopilotToken.IsExpired (t : Option CopilotToken) (now : Int) : Bool :=
  match t with
  | none => true
  | some tk =>
    if tk.token = "" then true
    else now ≥ tk.expiresAt - 60

end Crush

namespace Crush

/-- C1: for the short-lived Copilot token, both fixed-buffer expiry checks
(`CopilotToken.IsExpired` and `Token.IsCopilotTokenExpired`) return true iff
the token is nil, its token string is empty, or `now ≥ expiresAt - 60`; at
the exact boundary `now = expiresAt - 60` the token is expired. -/
theorem copilot_fixed_buffer_expiry :
    (∀ (t : Option CopilotToken) (now : Int),
      CopilotToken.IsExpired t now = true ↔
        (t = none ∨ ∃ tk, t = some tk ∧ (tk.token = "" ∨ now ≥ tk.expiresAt - 60))) ∧
    (∀ (t : Option Token) (now : Int),
      Token.IsCopilotTokenExpired t now = true ↔
        (t = none ∨ ∃ tk, t = some tk ∧
          (tk.copilotToken = "" ∨ now ≥ tk.copilotExpiresAt - 60))) ∧
    (∀ tk : CopilotToken, CopilotToken.IsExpired (some tk) (tk.expiresAt - 60) = true) ∧
    (∀ tk : Token,
      Token.IsCopilotTokenExpired (some tk) (tk.copilotExpiresAt - 60) = true) := by
  refine ⟨?_, ?_, ?_, ?_⟩
  · intro t now
    cases t with
    | none => simp [CopilotToken.IsExpired]
    | some tk =>
      simp only [CopilotToken.IsExpired]
      by_cases h : tk.token = "" <;> simp [h]
  · intro t now
    cases t with
    | none => simp [Token.IsCopilotTokenExpired]
    | some tk =>
      simp only [Token.IsCopilotTokenExpired]
      by_cases h : tk.copilotToken = "" <;> simp [h]
  · intro tk
    by_cases h : tk.token = "" <;> simp [CopilotToken.IsExpired, h]
  · intro tk
    by_cases h : tk.copilotToken = "" <;> simp [Token.IsCopilotTokenExpired, h]

/-- Witness for C1: the boundary conjunct of the expiry theorem evaluated on
a concrete token expiring at 100, checked at time 40. -/
theorem copilot_fixed_buffer_expiry_witness :
    CopilotToken.IsExpired (some ⟨"tid=x", 100⟩) (100 - 60) = true :=
  copilot_fixed_buffer_expiry.2.2.1 ⟨"tid=x", 100⟩

/-- A long-lived token with an empty value (`AccessToken = ""`) but a distant
expiry: `Token.IsExpired` reports it as not expired, because the Go method
checks only the timestamp arithmetic. -/
def valuelessToken : Token :=
  ⟨"", "", 3600, 10000, "", 0⟩

/-- C8 counterexample: the claim says a valueless token is always treated as
expired, but `Token.IsExpired` on a token with empty value and expiry far in
the future returns false. -/
theorem long_lived_valueless_counterexample :
    valuelessToken.accessToken = "" ∧ valuelessToken.IsExpired 0 = false := by
  constructor
  · rfl
  · decide

/-- C8 (amended): `Token.IsExpired` returns true iff
`now ≥ expiresAt - expiresIn/10` (Go truncated division); the method applies
no nil or valueless special case, so an empty-valued token with a distant
expiry is reported as not expired. -/
theorem long_lived_proportional_buffer_expiry :
    (∀ (t : Token) (now : Int),
      t.IsExpired now = true ↔ now ≥ t.expiresAt - Int.tdiv t.expiresIn 10) ∧
    (∀ t : Token, t.IsExpired (t.expiresAt - Int.tdiv t.expiresIn 10) = true) ∧
    valuelessToken.IsExpired 0 = false := by
  refine ⟨?_, ?_, by decide⟩
  · intro t now
    simp [Token.IsExpired]
  · intro t
    simp [Token.IsExpired]

/-- Witness for C8: the amended theorem's concrete conjunct. -/
theorem long_lived_proportional_buffer_expiry_witness :
    valuelessToken.IsExpired 0 = false :=
  long_lived_proportional_buffer_expiry.2.2

/-! ## Token exchange (`ExchangeForCopilotToken`, copilot/oauth.go)

The network layer is abstracted as the HTTP response it delivered; JSON
decoding of the 200 body (`json.Unmarshal` into `CopilotToken`) is abstracted
as a `parse` function supplied by the environment. -/

/-- HTTP response as observed by the exchange code: status and raw body. -/
structure HTTPResponse where
  status : Nat
  body : String
  deriving Repr, DecidableEq

/-- Error classes produced by `ExchangeForCopilotToken`, one per return site
in the Go status switch, plus the body-parse failure. -/
inductive ExchangeError where
  | invalidCredential
  | noEntitlement
  | rateLimited
  | unexpectedStatus (status : Nat) (body : String)
  | parseFailure (body : String)
  deriving Repr, DecidableEq

/-- Embeds the status switch and body parse of `ExchangeForCopilotToken`
(copilot/oauth.go): 200 parses the body, 401/403/429 map to their dedicated
errors, any other status maps to an unexpected-status error carrying status
and body. -/
def ExchangeForCopilotToken (parse : String → Option CopilotToken)
    (resp : HTTPResponse) : Except ExchangeError CopilotToken :=
  if resp.status = 200 then
    match parse resp.body with
    | some tok => .ok tok
    | none => .error (.parseFailure resp.body)
  else if resp.status = 401 then .error .invalidCredential
  else if resp.status = 403 then .error .noEntitlement
  else if resp.status = 429 then .error .rateLimited
  else .error (.unexpectedStatus resp.status resp.body)

/-- C5: the exchange errors iff the status is not 200 or the 200 body fails
to parse; 401, 403, 429 and other non-200 statuses map to their dedicated
error classes, and a parseable 200 returns the parsed token. -/
theorem exchange_status_mapping :
    ∀ (parse : String → Option CopilotToken) (resp : HTTPResponse),
      ((∃ e, ExchangeForCopilotToken parse resp = .error e) ↔
        (resp.status ≠ 200 ∨ parse resp.body = none)) ∧
      (resp.status = 401 →
        ExchangeForCopilotToken parse resp = .error .invalidCredential) ∧
      (resp.status = 403 →
        ExchangeForCopilotToken parse resp = .error .noEntitlement) ∧
      (resp.status = 429 →
        ExchangeForCopilotToken parse resp = .error .rateLimited) ∧
      (resp.status ≠ 200 → resp.status ≠ 401 → resp.status ≠ 403 →
        resp.status ≠ 429 →
        ExchangeForCopilotToken parse resp =
          .error (.unexpectedStatus resp.status resp.body)) ∧
      (∀ tok, resp.status = 200 → parse resp.body = some tok →
        ExchangeForCopilotToken parse resp = .ok tok) := by
  intro parse resp
  refine ⟨?_, ?_, ?_, ?_, ?_, ?_⟩
  · by_cases h200 : resp.status = 200
    · cases hp : parse resp.body with
      | none => simp [ExchangeForCopilotToken, h200, hp]
      | some tok => simp [ExchangeForCopilotToken, h200, hp]
    · simp only [ExchangeForCopilotToken, if_neg h200]
      constructor
      · intro _; exact Or.inl h200
      · intro _
        by_cases h1 : resp.status = 401
        · exact ⟨ExchangeError.invalidCredential, by simp [h1]⟩
        · by_cases h3 : resp.status = 403
          · exact ⟨ExchangeError.noEntitlement, by simp [h1, h3]⟩
          · by_cases h9 : resp.status = 429
            · exact ⟨ExchangeError.rateLimited, by simp [h1, h3, h9]⟩
            · exact ⟨ExchangeError.unexpectedStatus resp.status resp.body,
                by simp [h1, h3, h9]⟩
  · intro h
    have h200 : resp.status ≠ 200 := by omega
    simp [ExchangeForCopilotToken, h200, h]
  · intro h
    have h200 : resp.status ≠ 200 := by omega
    have h1 : resp.status ≠ 401 := by omega
    simp [ExchangeForCopilotToken, h200, h1, h]
  · intro h
    have h200 : resp.status ≠ 200 := by omega
    have h1 : resp.status ≠ 401 := by omega
    have h3 : resp.status ≠ 403 := by omega
    simp [ExchangeForCopilotToken, h200, h1, h3, h]
  · intro h200 h1 h3 h9
    simp [ExchangeForCopilotToken, h200, h1, h3, h9]
  · intro tok h200 hp
    simp [ExchangeForCopilotToken, h200, hp]

/-- Witness for C5: the mapping theorem evaluated on concrete responses. -/
theorem exchange_status_mapping_witness :
    ExchangeForCopilotToken (fun _ => some ⟨"tid=x", 100⟩) ⟨401, "b"⟩ =
      .error .invalidCredential ∧
    ExchangeForCopilotToken (fun _ => some ⟨"tid=x", 100⟩) ⟨403, "b"⟩ =
      .error .noEntitlement ∧
    ExchangeForCopilotToken (fun _ => some ⟨"tid=x", 100⟩) ⟨429, "b"⟩ =
      .error .rateLimited ∧
    ExchangeForCopilotToken (fun _ => some ⟨"tid=x", 100⟩) ⟨500, "oops"⟩ =
      .error (.unexpectedStatus 500 "oops") ∧
    ExchangeForCopilotToken (fun _ => some ⟨"tid=x", 100⟩) ⟨200, "b"⟩ =
      .ok ⟨"tid=x", 100⟩ := by
  refine ⟨?_, ?_, ?_, ?_, ?_⟩
  · exact (exchange_status_mapping (fun _ => some ⟨"tid=x", 100⟩) ⟨401, "b"⟩).2.1 rfl
  · exact (exchange_status_mapping (fun _ => some ⟨"tid=x", 100⟩) ⟨403, "b"⟩).2.2.1 rfl
  · exact (exchange_status_mapping (fun _ => some ⟨"tid=x", 100⟩) ⟨429, "b"⟩).2.2.2.1 rfl
  · exact (exchange_status_mapping (fun _ => some ⟨"tid=x", 100⟩) ⟨500, "oops"⟩).2.2.2.2.1
      (by decide) (by decide) (by decide) (by decide)
  · exact (exchange_status_mapping (fun _ => some ⟨"tid=x", 100⟩) ⟨200, "b"⟩).2.2.2.2.2
      ⟨"tid=x", 100⟩ rfl rfl

/-! ## Polling engine (`PollForToken` / `pollOnce`, copilot/oauth.go)

Each network poll attempt is abstracted as the decoded JSON body the server
returned for it (`PollResponse`, with the fields the Go code reads); the
scripted list of responses plays the role of the network.  Context
cancellation is modelled by `doneAt`: when `doneAt = some d`, the context's
done channel is closed from the wait preceding attempt `d` onward, so every
later `select` observes it.  A run records the terminal outcome, the list of
fully completed inter-attempt waits (in seconds), and the number of
`pollOnce` network calls issued. -/

/-- Decoded body of one poll attempt, with the fields `pollOnce` reads. -/
structure PollResponse where
  accessToken : String
  error : String
  errorDescription : String
  interval : Int
  deriving Repr, DecidableEq

/-- OAuth error response value (`OAuthError` in copilot/oauth.go). -/
structure OAuthError where
  code : String
  description : String
  deriving Repr, DecidableEq

/-- Embeds `pollOnce` (copilot/oauth.go): a body with a non-empty `error`
field yields an `OAuthError` together with the server-supplied interval;
otherwise the access token is returned (the Go code returns interval 0
there). -/
def pollOnce (r : PollResponse) : String × Int × Option OAuthError :=
  if r.error ≠ "" then ("", r.interval, some ⟨r.error, r.errorDescription⟩)
  else (r.accessToken, 0, none)

/-- Terminal outcome of the polling loop.  `cancelled` is the
`ctx.Err()` return taken when the context's done channel fires during the
inter-attempt wait; `exhausted` marks the end of the scripted response
list. -/
inductive PollFinal where
  | token (s : String)
  | oauthFailure (e : OAuthError)
  | cancelled
  | exhausted
  deriving Repr, DecidableEq

/-- Observable record of one polling run. -/
structure PollRun where
  final : PollFinal
  waits : List Int
  attempts : Nat
  deriving Repr, DecidableEq

/-- Whether the context's done channel is closed at the wait preceding
attempt `i`. -/
def ctxDone : Option Nat → Nat → Bool
  | none, _ => false
  | some d, i => decide (d ≤ i)

/-- Embeds the loop body of `PollForToken` (copilot/oauth.go): at iteration
`i > 0` the loop first waits, returning `ctx.Err()` if the context is done;
then it issues one poll attempt.  `authorization_pending` retries with the
same interval; `slow_down` retries with the server interval when it exceeds
the current one and with the current interval plus 5 otherwise; any other
error returns; a non-empty token returns; an empty token with no error falls
through to the next iteration. -/
def pollLoopAux (doneAt : Option Nat) : List PollResponse → Int → Nat → PollRun
  | rs, interval, i =>
    if 0 < i ∧ ctxDone doneAt i = true then ⟨.cancelled, [], i⟩
    else
      match rs with
      | [] => ⟨.exhausted, [], i⟩
      | r :: rest =>
        let w : List Int := if i = 0 then [] else [interval]
        let res : PollRun :=
          match pollOnce r with
          | (_, newInterval, some e) =>
            if e.code = "authorization_pending" then
              pollLoopAux doneAt rest interval (i + 1)
            else if e.code = "slow_down" then
              pollLoopAux doneAt rest
                (if newInterval > interval then newInterval else interval + 5) (i + 1)
            else ⟨.oauthFailure e, [], i + 1⟩
          | (tok, _, none) =>
            if tok ≠ "" then ⟨.token tok, [], i + 1⟩
            else pollLoopAux doneAt rest interval (i + 1)
        ⟨res.final, w ++ res.waits, res.attempts⟩

/-- Embeds `PollForToken` (copilot/oauth.go): clamp the initial interval to
at least 5 seconds, then run the polling loop with an immediate first
attempt. -/
def PollForToken (doneAt : Option Nat) (rs : List PollResponse)
    (interval : Int) : PollRun :=
  pollLoopAux doneAt rs (if interval < 5 then 5 else interval) 0

theorem pollLoopAux_waits_ge (doneAt : Option Nat) :
    ∀ (rs : List PollResponse) (interval : Int) (i : Nat), 5 ≤ interval →
      ∀ w ∈ (pollLoopAux doneAt rs interval i).waits, 5 ≤ w := by
  intro rs
  induction rs with
  | nil =>
    intro interval i h5 w hw
    rw [pollLoopAux] at hw
    split at hw
    · simp at hw
    · simp at hw
  | cons r rest ih =>
    intro interval i h5 w hw
    rw [pollLoopAux] at hw
    split at hw
    · simp at hw
    · simp only [List.mem_append] at hw
      rcases hw with hw | hw
      · have : w = interval := by
          rcases Nat.eq_zero_or_pos i with h0 | h0
          · simp [h0] at hw
          · have : i ≠ 0 := Nat.pos_iff_ne_zero.mp h0
            simp [this] at hw
            exact hw
        omega
      · rcases hpo : pollOnce r with ⟨tok, newInterval, oe⟩
        rw [hpo] at hw
        rcases oe with _ | e
        · by_cases htok : tok ≠ ""
          · simp [htok] at hw
          · simp [htok] at hw
            exact ih interval (i + 1) h5 w hw
        · by_cases hpend : e.code = "authorization_pending"
          · simp [hpend] at hw
            exact ih interval (i + 1) h5 w hw
          · by_cases hslow : e.code = "slow_down"
            · simp [hpend, hslow] at hw
              refine ih _ (i + 1) ?_ w hw
              split
              · omega
              · omega
            · simp [hpend, hslow] at hw

/-- C4: every completed inter-attempt wait is at least 5 seconds whatever the
server supplied; an initial interval below 5 is clamped to exactly 5; and a
`slow_down` response makes the next interval the server-suggested one when it
exceeds the current interval and the current interval plus exactly 5
otherwise. -/
theorem poll_interval_invariant :
    (∀ (doneAt : Option Nat) (rs : List PollResponse) (interval0 : Int),
      ∀ w ∈ (PollForToken doneAt rs interval0).waits, 5 ≤ w) ∧
    (∀ (doneAt : Option Nat) (rs : List PollResponse) (interval0 : Int),
      interval0 < 5 → PollForToken doneAt rs interval0 = pollLoopAux doneAt rs 5 0) ∧
    (∀ (desc : String) (n : Int) (rest : List PollResponse) (interval : Int)
        (i : Nat),
      pollLoopAux none (⟨"", "slow_down", desc, n⟩ :: rest) interval (i + 1) =
        ⟨(pollLoopAux none rest (if n > interval then n else interval + 5)
            (i + 2)).final,
         interval :: (pollLoopAux none rest
            (if n > interval then n else interval + 5) (i + 2)).waits,
         (pollLoopAux none rest (if n > interval then n else interval + 5)
            (i + 2)).attempts⟩) := by
  refine ⟨?_, ?_, ?_⟩
  · intro doneAt rs interval0 w hw
    refine pollLoopAux_waits_ge doneAt rs _ 0 ?_ w hw
    split
    · omega
    · omega
  · intro doneAt rs interval0 h
    unfold PollForToken
    rw [if_pos h]
  · intro desc n rest interval i
    rw [pollLoopAux]
    simp [pollOnce, ctxDone]

/-- Witness for C4: the invariant and the clamp evaluated on concrete runs;
the first conjunct applies the theorem to the single wait of a
pending-then-success run started with interval 2. -/
theorem poll_interval_invariant_witness :
    (5 : Int) ≤ 5 ∧ PollForToken none [] 2 = pollLoopAux none [] 5 0 := by
  constructor
  · refine poll_interval_invariant.1 none
      [⟨"", "authorization_pending", "", 0⟩, ⟨"gho_x", "", "", 0⟩] 2 5 ?_
    decide
  · exact poll_interval_invariant.2.1 none [] 2 (by decide)

theorem pollLoopAux_final_ne_empty (doneAt : Option Nat) :
    ∀ (rs : List PollResponse) (interval : Int) (i : Nat),
      (pollLoopAux doneAt rs interval i).final ≠ PollFinal.token "" := by
  intro rs
  induction rs with
  | nil =>
    intro interval i
    rw [pollLoopAux]
    split
    · simp
    · simp
  | cons r rest ih =>
    intro interval i
    rw [pollLoopAux]
    split
    · simp
    · rcases hpo : pollOnce r with ⟨tok, newInterval, oe⟩
      simp only [hpo]
      rcases oe with _ | e
      · by_cases htok : tok ≠ ""
        · simp [htok]
        · simpa [htok] using ih interval (i + 1)
      · by_cases hpend : e.code = "authorization_pending"
        · simpa [hpend] using ih interval (i + 1)
        · by_cases hslow : e.code = "slow_down"
          · simpa [hpend, hslow] using
              ih (if newInterval > interval then newInterval else interval + 5) (i + 1)
          · simp [hpend, hslow]

/-- C10: the polling loop never terminates with an empty access token (its
result is a non-empty token or an error outcome), and a poll response with
neither an error field nor an access token is treated like a pending
outcome: the loop waits and issues another attempt instead of returning. -/
theorem poll_never_empty_token :
    (∀ (doneAt : Option Nat) (rs : List PollResponse) (interval0 : Int),
      (PollForToken doneAt rs interval0).final ≠ PollFinal.token "") ∧
    (∀ (desc : String) (n : Int) (rest : List PollResponse) (interval : Int)
        (i : Nat),
      pollLoopAux none (⟨"", "", desc, n⟩ :: rest) interval i =
        ⟨(pollLoopAux none rest interval (i + 1)).final,
         (if i = 0 then [] else [interval]) ++
           (pollLoopAux none rest interval (i + 1)).waits,
         (pollLoopAux none rest interval (i + 1)).attempts⟩) := by
  constructor
  · intro doneAt rs interval0
    exact pollLoopAux_final_ne_empty doneAt rs _ 0
  · intro desc n rest interval i
    rw [pollLoopAux]
    simp [pollOnce, ctxDone]

/-- Witness for C10: the theorem applied to a concrete one-response run. -/
theorem poll_never_empty_token_witness :
    (PollForToken none [⟨"", "", "", 0⟩] 5).final ≠ PollFinal.token "" :=
  poll_never_empty_token.1 none [⟨"", "", "", 0⟩] 5

theorem pollLoopAux_cancel_dichotomy (d : Nat) (hd : 0 < d) :
    ∀ (rs : List PollResponse) (interval : Int) (i : Nat), i ≤ d →
      ((pollLoopAux (some d) rs interval i).final = PollFinal.cancelled ∧
        (pollLoopAux (some d) rs interval i).attempts = d) ∨
      ((pollLoopAux (some d) rs interval i).final ≠ PollFinal.cancelled ∧
        (pollLoopAux (some d) rs interval i).attempts ≤ d) := by
  intro rs
  induction rs with
  | nil =>
    intro interval i hi
    rw [pollLoopAux]
    by_cases hc : 0 < i ∧ ctxDone (some d) i = true
    · rw [if_pos hc]
      left
      refine ⟨rfl, ?_⟩
      show i = d
      simp only [ctxDone, decide_eq_true_iff] at hc
      omega
    · rw [if_neg hc]
      right
      exact ⟨by simp, hi⟩
  | cons r rest ih =>
    intro interval i hi
    rw [pollLoopAux]
    by_cases hc : 0 < i ∧ ctxDone (some d) i = true
    · rw [if_pos hc]
      left
      refine ⟨rfl, ?_⟩
      show i = d
      simp only [ctxDone, decide_eq_true_iff] at hc
      omega
    · rw [if_neg hc]
      have hi1 : i + 1 ≤ d := by
        simp only [ctxDone, decide_eq_true_iff, not_and] at hc
        rcases Nat.eq_zero_or_pos i with h0 | h0
        · omega
        · have := hc h0
          omega
      rcases hpo : pollOnce r with ⟨tok, newInterval, oe⟩
      simp only [hpo]
      rcases oe with _ | e
      · by_cases htok : tok = ""
        · simpa [htok] using ih interval (i + 1) hi1
        · right
          refine ⟨by simp [htok], ?_⟩
          simp [htok]
          omega
      · by_cases hpend : e.code = "authorization_pending"
        · simpa [hpend] using ih interval (i + 1) hi1
        · by_cases hslow : e.code = "slow_down"
          · simpa [hpend, hslow] using
              ih (if newInterval > interval then newInterval else interval + 5)
                (i + 1) hi1
          · right
            refine ⟨by simp [hpend, hslow], ?_⟩
            simp [hpend, hslow]
            omega

/-- C6: when the context becomes done from the wait preceding attempt `d`
onward, the polling loop either already terminated for another reason strictly
before that wait (fewer than or exactly `d` attempts, result not cancelled)
or it returns the cancellation error having made exactly `d` poll attempts:
once cancellation fires during the inter-attempt wait, the wait is
interrupted and no further poll attempt is ever issued. -/
theorem poll_cancellation_stops_polling :
    ∀ (d : Nat) (rs : List PollResponse) (interval0 : Int), 0 < d →
      ((PollForToken (some d) rs interval0).final = PollFinal.cancelled ∧
        (PollForToken (some d) rs interval0).attempts = d) ∨
      ((PollForToken (some d) rs interval0).final ≠ PollFinal.cancelled ∧
        (PollForToken (some d) rs interval0).attempts ≤ d) := by
  intro d rs interval0 hd
  exact pollLoopAux_cancel_dichotomy d hd rs _ 0 (Nat.zero_le d)

/-- Witness for C6: a run scripted to stay pending forever is cancelled at
wait 2 with exactly 2 attempts made. -/
theorem poll_cancellation_stops_polling_witness :
    ((PollForToken (some 2)
        [⟨"", "authorization_pending", "", 0⟩, ⟨"", "authorization_pending", "", 0⟩,
         ⟨"gho_x", "", "", 0⟩] 5).final = PollFinal.cancelled ∧
      (PollForToken (some 2)
        [⟨"", "authorization_pending", "", 0⟩, ⟨"", "authorization_pending", "", 0⟩,
         ⟨"gho_x", "", "", 0⟩] 5).attempts = 2) ∨
    ((PollForToken (some 2)
        [⟨"", "authorization_pending", "", 0⟩, ⟨"", "authorization_pending", "", 0⟩,
         ⟨"gho_x", "", "", 0⟩] 5).final ≠ PollFinal.cancelled ∧
      (PollForToken (some 2)
        [⟨"", "authorization_pending", "", 0⟩, ⟨"", "authorization_pending", "", 0⟩,
         ⟨"gho_x", "", "", 0⟩] 5).attempts ≤ 2) :=
  poll_cancellation_stops_polling 2
    [⟨"", "authorization_pending", "", 0⟩, ⟨"", "authorization_pending", "", 0⟩,
     ⟨"gho_x", "", "", 0⟩] 5 (by decide)

/-! ## Caching transport (`Transport.getValidToken` / `ClearCache`)

The injected collaborators of `getValidToken` are abstracted as the outcomes
they deliver during the call: the provider callback's result, the outcome of
`ExchangeForCopilotToken` on the long-lived token, and the saver callback's
configuration and result.  The shared mutable state is the `copilotToken`
cache field; the lock-protected section is `lockedRefresh` and the read-lock
fast path is the outer check in `getValidToken`. -/

/-- Environment of one `getValidToken` call: current time and the outcomes
the injected collaborators would deliver. -/
structure RefreshEnv where
  now : Int
  provider : Except String (Option Token)
  exchangeResult : Except ExchangeError CopilotToken
  saverConfigured : Bool
  saverResult : Except String Unit

/-- Errors `getValidToken` can return: the provider callback's error, the
`no_token` OAuth error, or the exchange's error. -/
inductive TransportError where
  | providerFailure (message : String)
  | oauthFailure (e : OAuthError)
  | exchangeFailure (e : ExchangeError)
  deriving Repr, DecidableEq

/-- Observable outcome of one `getValidToken` call: the returned token or
error, the cache field afterwards, the number of network exchange calls
made (0 or 1), and the token handed to the saver callback, if any. -/
structure RefreshOutcome where
  result : Except TransportError String
  cache : Option CopilotToken
  exchangeCalls : Nat
  saved : Option Token
  deriving Repr

/-- Embeds the slow path of `getValidToken` after the double-check missed:
query the provider, reject a nil or refresh-token-less credential, adopt a
still-valid persisted Copilot token without exchanging, otherwise exchange,
cache the result, and hand the updated credential to the saver when one is
configured.  The saver's own result is only logged by the Go code, so it
does not appear in the outcome. -/
def lockedRefreshMiss (env : RefreshEnv) (cached : Option CopilotToken) :
    RefreshOutcome :=
  match env.provider with
  | .error e => ⟨.error (.providerFailure e), cached, 0, none⟩
  | .ok none =>
    ⟨.error (.oauthFailure ⟨"no_token", "no GitHub OAuth token available"⟩),
      cached, 0, none⟩
  | .ok (some tk) =>
    if tk.refreshToken = "" then
      ⟨.error (.oauthFailure ⟨"no_token", "no GitHub OAuth token available"⟩),
        cached, 0, none⟩
    else if Token.IsCopilotTokenExpired (some tk) env.now = false then
      ⟨.ok tk.copilotToken, some ⟨tk.copilotToken, tk.copilotExpiresAt⟩, 0, none⟩
    else
      match env.exchangeResult with
      | .error e => ⟨.error (.exchangeFailure e), cached, 1, none⟩
      | .ok ct =>
        if env.saverConfigured then
          ⟨.ok ct.token, some ct, 1,
            some ⟨tk.accessToken, tk.refreshToken, tk.expiresIn, tk.expiresAt,
              ct.token, ct.expiresAt⟩⟩
        else ⟨.ok ct.token, some ct, 1, none⟩

/-- Embeds the write-lock section of `getValidToken`: re-check the cache
(double-checked locking) and fall into the refresh path on a miss. -/
def lockedRefresh (env : RefreshEnv) (cached : Option CopilotToken) :
    RefreshOutcome :=
  match cached with
  | some ct =>
    if CopilotToken.IsExpired (some ct) env.now then lockedRefreshMiss env (some ct)
    else ⟨.ok ct.token, some ct, 0, none⟩
  | none => lockedRefreshMiss env none

/-- Embeds `Transport.getValidToken`: the read-lock fast path returns a
valid cached token without any collaborator call; otherwise the write-lock
section runs. -/
def getValidToken (env : RefreshEnv) (cached : Option CopilotToken) :
    RefreshOutcome :=
  match cached with
  | some ct =>
    if CopilotToken.IsExpired (some ct) env.now then lockedRefresh env (some ct)
    else ⟨.ok ct.token, some ct, 0, none⟩
  | none => lockedRefresh env none

/-- Embeds `Transport.ClearCache`: unconditionally discards the cached
token. -/
def ClearCache (_cached : Option CopilotToken) : Option CopilotToken := none

/-- C2: after `ClearCache` the cache is empty hence expired; and whenever the
in-memory cache is invalid but the provider delivers a credential whose
persisted Copilot token is unexpired under the 60-second buffer,
`getValidToken` adopts that persisted token into the cache and returns it
with zero exchange calls. -/
theorem adopt_persisted_token_no_exchange :
    (∀ (c : Option CopilotToken) (now : Int),
      CopilotToken.IsExpired (ClearCache c) now = true) ∧
    (∀ (env : RefreshEnv) (cached : Option CopilotToken) (tk : Token),
      CopilotToken.IsExpired cached env.now = true →
      env.provider = .ok (some tk) →
      tk.refreshToken ≠ "" →
      Token.IsCopilotTokenExpired (some tk) env.now = false →
      getValidToken env cached =
        ⟨.ok tk.copilotToken, some ⟨tk.copilotToken, tk.copilotExpiresAt⟩,
          0, none⟩) := by
  constructor
  · intro c now
    rfl
  · intro env cached tk hcache hprov hrt hvalid
    have hmiss : lockedRefreshMiss env cached =
        ⟨.ok tk.copilotToken, some ⟨tk.copilotToken, tk.copilotExpiresAt⟩,
          0, none⟩ := by
      simp [lockedRefreshMiss, hprov, hrt, hvalid]
    cases cached with
    | none =>
      rw [getValidToken, lockedRefresh]
      exact hmiss
    | some ct =>
      rw [getValidToken, if_pos hcache, lockedRefresh, if_pos hcache]
      exact hmiss

/-- Witness for C2: a concrete post-`ClearCache` call adopting a persisted
token with zero exchange calls. -/
theorem adopt_persisted_token_no_exchange_witness :
    getValidToken
      ⟨100, .ok (some ⟨"", "gho_x", 3600, 100000, "tid=p", 100000⟩),
        .error .rateLimited, true, .ok ()⟩
      (ClearCache (some ⟨"tid=old", 0⟩)) =
      ⟨.ok "tid=p", some ⟨"tid=p", 100000⟩, 0, none⟩ := by
  refine adopt_persisted_token_no_exchange.2
    ⟨100, .ok (some ⟨"", "gho_x", 3600, 100000, "tid=p", 100000⟩),
      .error .rateLimited, true, .ok ()⟩
    (ClearCache (some ⟨"tid=old", 0⟩)) ⟨"", "gho_x", 3600, 100000, "tid=p", 100000⟩
    ?_ rfl ?_ ?_
  · decide
  · decide
  · decide

/-- C9: on the refresh path, when the exchange succeeds, a configured saver
that fails does not fail the call: the freshly obtained token is returned
and stored in the in-memory cache regardless of the saver's error. -/
theorem saver_failure_nonfatal :
    ∀ (env : RefreshEnv) (cached : Option CopilotToken) (tk : Token)
      (ct : CopilotToken) (msg : String),
      CopilotToken.IsExpired cached env.now = true →
      env.provider = .ok (some tk) →
      tk.refreshToken ≠ "" →
      Token.IsCopilotTokenExpired (some tk) env.now = true →
      env.exchangeResult = .ok ct →
      env.saverConfigured = true →
      env.saverResult = .error msg →
      (getValidToken env cached).result = .ok ct.token ∧
      (getValidToken env cached).cache = some ct := by
  intro env cached tk ct msg hcache hprov hrt hexp hex hsc _hsr
  have hmiss : lockedRefreshMiss env cached =
      ⟨.ok ct.token, some ct, 1,
        some ⟨tk.accessToken, tk.refreshToken, tk.expiresIn, tk.expiresAt,
          ct.token, ct.expiresAt⟩⟩ := by
    simp [lockedRefreshMiss, hprov, hrt, hexp, hex, hsc]
  cases cached with
  | none =>
    rw [getValidToken, lockedRefresh]
    rw [hmiss]
    exact ⟨rfl, rfl⟩
  | some c =>
    rw [getValidToken, if_pos hcache, lockedRefresh, if_pos hcache]
    rw [hmiss]
    exact ⟨rfl, rfl⟩

/-- Witness for C9: a concrete refresh with a failing saver still returns
and caches the fresh token. -/
theorem saver_failure_nonfatal_witness :
    (getValidToken
      ⟨100, .ok (some ⟨"", "gho_x", 3600, 100000, "", 0⟩), .ok ⟨"tid=new", 5000⟩,
        true, .error "disk full"⟩ none).result = .ok "tid=new" ∧
    (getValidToken
      ⟨100, .ok (some ⟨"", "gho_x", 3600, 100000, "", 0⟩), .ok ⟨"tid=new", 5000⟩,
        true, .error "disk full"⟩ none).cache = some ⟨"tid=new", 5000⟩ := by
  refine saver_failure_nonfatal
    ⟨100, .ok (some ⟨"", "gho_x", 3600, 100000, "", 0⟩), .ok ⟨"tid=new", 5000⟩,
      true, .error "disk full"⟩ none ⟨"", "gho_x", 3600, 100000, "", 0⟩
    ⟨"tid=new", 5000⟩ "disk full" ?_ rfl ?_ ?_ rfl rfl rfl
  · decide
  · decide
  · decide

/-! ## Request preparation (`Transport.RoundTrip`, C7)

Go requests are pointers and `Header.Set` mutates the pointed-to header
table, so non-mutation of the caller's request is a heap property: requests
live in a store addressed by index, `req.Clone` allocates a fresh request
whose header table is a copy, and every `Set` performed by `RoundTrip`
targets the clone's address.  Go map iteration order over `CopilotHeaders`
is unspecified; the fixed key list below is one order, and the keys are
pairwise distinct so the resulting header table does not depend on it. -/

/-- Embeds `http.Header.Set`: replaces any previous values for the key. -/
def setHeader (h : List (String × String)) (k v : String) :
    List (String × String) :=
  h.filter (fun p => p.1 ≠ k) ++ [(k, v)]

/-- Embeds `http.Header.Get`: the value stored for the key, if any. -/
def getHeader (h : List (String × String)) (k : String) : Option String :=
  (h.find? (fun p => p.1 = k)).map (fun p => p.2)

/-- Heap of live requests, addressed by index; each request is its header
table. -/
structure Store where
  reqs : List (List (String × String))
  deriving Repr, DecidableEq

/-- Embeds `req.Clone(ctx)` restricted to headers: allocates a fresh request
whose header table is a copy of the original's, returning its address. -/
def Store.clone (s : Store) (r : Nat) : Store × Nat :=
  (⟨s.reqs ++ [s.reqs.getD r []]⟩, s.reqs.length)

/-- Embeds `Header.Set` through a request pointer: mutates the addressed
request's header table in place. -/
def Store.setHeaderAt (s : Store) (r : Nat) (k v : String) : Store :=
  ⟨s.reqs.set r (setHeader (s.reqs.getD r []) k v)⟩

/-- The fixed VS-Code-mimicry header set (`CopilotHeaders`,
copilot/oauth.go). -/
def CopilotHeaders : List (String × String) :=
  [("User-Agent", "GitHubCopilotChat/0.32.4"),
   ("Editor-Version", "vscode/1.105.1"),
   ("Editor-Plugin-Version", "copilot-chat/0.32.4"),
   ("Copilot-Integration-Id", "vscode-chat")]

/-- Embeds the request preparation of `Transport.RoundTrip`: clone the
caller's request, then set the Authorization header, the mimicry headers,
and the two request-purpose headers on the clone; returns the store and the
address of the request handed to the base transport. -/
def RoundTripPrepare (s : Store) (r : Nat) (token : String) : Store × Nat :=
  let c := s.clone r
  let s1 := c.1.setHeaderAt c.2 "Authorization" ("Bearer " ++ token)
  let s2 := CopilotHeaders.foldl (fun st kv => st.setHeaderAt c.2 kv.1 kv.2) s1
  let s3 := s2.setHeaderAt c.2 "Openai-Intent" "conversation-edits"
  let s4 := s3.setHeaderAt c.2 "X-Initiator" "user"
  (s4, c.2)

theorem getHeader_setHeader_same (h : List (String × String)) (k v : String) :
    getHeader (setHeader h k v) k = some v := by
  induction h with
  | nil =>
    simp [setHeader, getHeader]
  | cons hd tl ih =>
    unfold setHeader at ih ⊢
    rw [List.filter_cons]
    by_cases hhd : hd.1 = k
    · rw [if_neg (by simp [hhd])]
      exact ih
    · rw [if_pos (by simp [hhd])]
      unfold getHeader at ih ⊢
      rw [List.cons_append, List.find?_cons_of_neg _ (by simp [hhd])]
      exact ih

theorem getHeader_setHeader_ne (h : List (String × String)) (k kp v : String)
    (hne : kp ≠ k) : getHeader (setHeader h kp v) k = getHeader h k := by
  induction h with
  | nil =>
    simp [setHeader, getHeader, hne]
  | cons hd tl ih =>
    unfold setHeader at ih ⊢
    rw [List.filter_cons]
    by_cases hhd : hd.1 = kp
    · rw [if_neg (by simp [hhd])]
      rw [ih]
      unfold getHeader
      rw [List.find?_cons_of_neg _ (by simp [hhd, hne])]
    · rw [if_pos (by simp [hhd])]
      unfold getHeader at ih ⊢
      rw [List.cons_append]
      by_cases hk : hd.1 = k
      · rw [List.find?_cons_of_pos _ (by simp [hk]),
          List.find?_cons_of_pos _ (by simp [hk])]
      · rw [List.find?_cons_of_neg _ (by simp [hk]),
          List.find?_cons_of_neg _ (by simp [hk])]
        exact ih

theorem setHeaderAt_getElem_ne (s : Store) (a r : Nat) (k v : String)
    (h : a ≠ r) : (s.setHeaderAt a k v).reqs[r]? = s.reqs[r]? := by
  simp [Store.setHeaderAt, List.getElem?_set_ne h]

theorem setHeaderAt_getD_self (s : Store) (a : Nat) (k v : String)
    (h : a < s.reqs.length) :
    (s.setHeaderAt a k v).reqs.getD a [] = setHeader (s.reqs.getD a []) k v := by
  simp [Store.setHeaderAt, List.getD_eq_getElem?_getD, List.getElem?_set_self h]

theorem setHeaderAt_length (s : Store) (a : Nat) (k v : String) :
    (s.setHeaderAt a k v).reqs.length = s.reqs.length := by
  simp [Store.setHeaderAt]

theorem foldl_setHeaderAt_length (a : Nat) (kvs : List (String × String)) :
    ∀ (s : Store),
      (kvs.foldl (fun st kv => st.setHeaderAt a kv.1 kv.2) s).reqs.length =
        s.reqs.length := by
  induction kvs with
  | nil => intro s; rfl
  | cons kv kvs ih =>
    intro s
    rw [List.foldl_cons, ih, setHeaderAt_length]

theorem foldl_setHeaderAt_getElem_ne (a rr : Nat) (hne : a ≠ rr)
    (kvs : List (String × String)) :
    ∀ (s : Store),
      (kvs.foldl (fun st kv => st.setHeaderAt a kv.1 kv.2) s).reqs[rr]? =
        s.reqs[rr]? := by
  induction kvs with
  | nil => intro s; rfl
  | cons kv kvs ih =>
    intro s
    rw [List.foldl_cons, ih, setHeaderAt_getElem_ne _ _ _ _ _ hne]

theorem foldl_setHeaderAt_getD (a : Nat) (kvs : List (String × String)) :
    ∀ (s : Store), a < s.reqs.length →
      (kvs.foldl (fun st kv => st.setHeaderAt a kv.1 kv.2) s).reqs.getD a [] =
        kvs.foldl (fun h kv => setHeader h kv.1 kv.2) (s.reqs.getD a []) := by
  induction kvs with
  | nil => intro s _; rfl
  | cons kv kvs ih =>
    intro s hs
    rw [List.foldl_cons, List.foldl_cons,
      ih _ (by rw [setHeaderAt_length]; exact hs),
      setHeaderAt_getD_self _ _ _ _ hs]

/-- C7: `Transport.RoundTrip` never mutates the caller's request: the
original request's header table is identical before and after the call, the
request handed to the base transport is a different object (the clone), and
the bearer token, the four mimicry headers, and the two purpose headers are
set only on that clone. -/
theorem roundtrip_never_mutates_request :
    ∀ (s : Store) (r : Nat) (token : String), r < s.reqs.length →
      (RoundTripPrepare s r token).1.reqs[r]? = s.reqs[r]? ∧
      (RoundTripPrepare s r token).2 ≠ r ∧
      getHeader ((RoundTripPrepare s r token).1.reqs.getD
          (RoundTripPrepare s r token).2 []) "Authorization" =
        some ("Bearer " ++ token) ∧
      getHeader ((RoundTripPrepare s r token).1.reqs.getD
          (RoundTripPrepare s r token).2 []) "Openai-Intent" =
        some "conversation-edits" ∧
      getHeader ((RoundTripPrepare s r token).1.reqs.getD
          (RoundTripPrepare s r token).2 []) "X-Initiator" = some "user" ∧
      getHeader ((RoundTripPrepare s r token).1.reqs.getD
          (RoundTripPrepare s r token).2 []) "User-Agent" =
        some "GitHubCopilotChat/0.32.4" ∧
      getHeader ((RoundTripPrepare s r token).1.reqs.getD
          (RoundTripPrepare s r token).2 []) "Editor-Version" =
        some "vscode/1.105.1" ∧
      getHeader ((RoundTripPrepare s r token).1.reqs.getD
          (RoundTripPrepare s r token).2 []) "Editor-Plugin-Version" =
        some "copilot-chat/0.32.4" ∧
      getHeader ((RoundTripPrepare s r token).1.reqs.getD
          (RoundTripPrepare s r token).2 []) "Copilot-Integration-Id" =
        some "vscode-chat" := by
  intro s r token hr
  have hcomp : RoundTripPrepare s r token =
      ((("Authorization", "Bearer " ++ token) ::
          (CopilotHeaders ++
            [("Openai-Intent", "conversation-edits"),
             ("X-Initiator", "user")])).foldl
        (fun st kv => st.setHeaderAt s.reqs.length kv.1 kv.2)
        ⟨s.reqs ++ [s.reqs.getD r []]⟩,
       s.reqs.length) := rfl
  have hbase : ((⟨s.reqs ++ [s.reqs.getD r []]⟩ : Store)).reqs.getD
      s.reqs.length [] = s.reqs.getD r [] := by
    show (s.reqs ++ [s.reqs.getD r []]).getD s.reqs.length [] = s.reqs.getD r []
    rw [List.getD_eq_getElem?_getD, List.getElem?_concat_length]
    rfl
  have htab : (RoundTripPrepare s r token).1.reqs.getD
      (RoundTripPrepare s r token).2 [] =
      (("Authorization", "Bearer " ++ token) ::
          (CopilotHeaders ++
            [("Openai-Intent", "conversation-edits"),
             ("X-Initiator", "user")])).foldl
        (fun h kv => setHeader h kv.1 kv.2) (s.reqs.getD r []) := by
    rw [hcomp]
    dsimp only
    rw [foldl_setHeaderAt_getD _ _ _ (by simp), hbase]
  refine ⟨?_, ?_, ?_, ?_, ?_, ?_, ?_, ?_, ?_⟩
  · rw [hcomp]
    dsimp only
    rw [foldl_setHeaderAt_getElem_ne _ _ (by omega)]
    simp [List.getElem?_append, hr]
  · rw [hcomp]
    dsimp only
    omega
  · rw [htab]
    simp only [CopilotHeaders, List.cons_append, List.nil_append,
      List.foldl_cons, List.foldl_nil]
    rw [getHeader_setHeader_ne _ _ _ _ (by decide),
      getHeader_setHeader_ne _ _ _ _ (by decide),
      getHeader_setHeader_ne _ _ _ _ (by decide),
      getHeader_setHeader_ne _ _ _ _ (by decide),
      getHeader_setHeader_ne _ _ _ _ (by decide),
      getHeader_setHeader_ne _ _ _ _ (by decide),
      getHeader_setHeader_same]
  · rw [htab]
    simp only [CopilotHeaders, List.cons_append, List.nil_append,
      List.foldl_cons, List.foldl_nil]
    rw [getHeader_setHeader_ne _ _ _ _ (by decide), getHeader_setHeader_same]
  · rw [htab]
    simp only [CopilotHeaders, List.cons_append, List.nil_append,
      List.foldl_cons, List.foldl_nil]
    rw [getHeader_setHeader_same]
  · rw [htab]
    simp only [CopilotHeaders, List.cons_append, List.nil_append,
      List.foldl_cons, List.foldl_nil]
    rw [getHeader_setHeader_ne _ _ _ _ (by decide),
      getHeader_setHeader_ne _ _ _ _ (by decide),
      getHeader_setHeader_ne _ _ _ _ (by decide),
      getHeader_setHeader_ne _ _ _ _ (by decide),
      getHeader_setHeader_ne _ _ _ _ (by decide),
      getHeader_setHeader_same]
  · rw [htab]
    simp only [CopilotHeaders, List.cons_append, List.nil_append,
      List.foldl_cons, List.foldl_nil]
    rw [getHeader_setHeader_ne _ _ _ _ (by decide),
      getHeader_setHeader_ne _ _ _ _ (by decide),
      getHeader_setHeader_ne _ _ _ _ (by decide),
      getHeader_setHeader_ne _ _ _ _ (by decide),
      getHeader_setHeader_same]
  · rw [htab]
    simp only [CopilotHeaders, List.cons_append, List.nil_append,
      List.foldl_cons, List.foldl_nil]
    rw [getHeader_setHeader_ne _ _ _ _ (by decide),
      getHeader_setHeader_ne _ _ _ _ (by decide),
      getHeader_setHeader_ne _ _ _ _ (by decide),
      getHeader_setHeader_same]
  · rw [htab]
    simp only [CopilotHeaders, List.cons_append, List.nil_append,
      List.foldl_cons, List.foldl_nil]
    rw [getHeader_setHeader_ne _ _ _ _ (by decide),
      getHeader_setHeader_ne _ _ _ _ (by decide),
      getHeader_setHeader_same]

/-- Witness for C7: on a one-request store, the original request's header
table is untouched by the call. -/
theorem roundtrip_never_mutates_request_witness :
    (RoundTripPrepare ⟨[[("Authorization", "old"), ("Accept", "a")]]⟩ 0
        "T").1.reqs[0]? =
      (⟨[[("Authorization", "old"), ("Accept", "a")]]⟩ : Store).reqs[0]? :=
  (roundtrip_never_mutates_request
    ⟨[[("Authorization", "old"), ("Accept", "a")]]⟩ 0 "T" (by decide)).1

/-! ## Concurrent callers (C3)

`sync.RWMutex` serializes the read-lock check and the write-lock section of
`getValidToken`, so any concurrent execution of N callers is some
interleaving of these atomic sections, each caller running its read section
before its (optional) write section.  A schedule lists, in order, which
caller runs its next pending section; values within a section are written
and read whole under the lock, so no torn token value exists in the model by
construction. -/

/-- Local progress of one concurrent caller through `getValidToken`. -/
inductive CallerPhase where
  | start
  | needRefresh
  | finished (result : Except TransportError String)
  deriving Repr

/-- Whether a caller's `getValidToken` call has returned. -/
def CallerPhase.isFinished : CallerPhase → Bool
  | .finished _ => true
  | _ => false

/-- Shared state of the interleaved execution: every caller's local phase,
the transport's cache field, and the running count of exchange calls. -/
structure SchedState where
  phases : List CallerPhase
  cache : Option CopilotToken
  exchangeCalls : Nat
  deriving Repr

/-- The read-lock fast path of `getValidToken` as one atomic section: a
valid cached token finishes the caller, otherwise it proceeds to the
write-lock section. -/
def readSection (now : Int) (cache : Option CopilotToken) : CallerPhase :=
  match cache with
  | some ct =>
    if CopilotToken.IsExpired (some ct) now then .needRefresh
    else .finished (.ok ct.token)
  | none => .needRefresh

/-- One atomic section of a caller in a given phase: its next phase, the
cache afterwards, and the number of exchange calls the section performed. -/
def stepCaller (env : RefreshEnv) (cache : Option CopilotToken) :
    CallerPhase → CallerPhase × Option CopilotToken × Nat
  | .start => (readSection env.now cache, cache, 0)
  | .needRefresh =>
    (.finished (lockedRefresh env cache).result, (lockedRefresh env cache).cache,
      (lockedRefresh env cache).exchangeCalls)
  | .finished r => (.finished r, cache, 0)

/-- Runs an interleaving: each schedule entry names the caller that runs its
next atomic section; out-of-range entries are skipped. -/
def runSchedule (env : RefreshEnv) : List Nat → SchedState → SchedState
  | [], st => st
  | j :: sched, st =>
    match st.phases[j]? with
    | none => runSchedule env sched st
    | some p =>
      runSchedule env sched
        ⟨st.phases.set j (stepCaller env st.cache p).1,
         (stepCaller env st.cache p).2.1,
         st.exchangeCalls + (stepCaller env st.cache p).2.2⟩

/-- Invariant of a cold-start run against a well-behaved environment:
either nobody has refreshed yet (empty cache, zero exchanges, nobody
finished) or exactly one exchange has happened, the cache holds its result,
and every finished caller got that token. -/
def ColdRunInv (ct : CopilotToken) (st : SchedState) : Prop :=
  (st.cache = none ∧ st.exchangeCalls = 0 ∧
    ∀ p ∈ st.phases, p = CallerPhase.start ∨ p = CallerPhase.needRefresh) ∨
  (st.cache = some ct ∧ st.exchangeCalls = 1 ∧
    ∀ p ∈ st.phases, p = CallerPhase.start ∨ p = CallerPhase.needRefresh ∨
      p = CallerPhase.finished (.ok ct.token))

theorem runSchedule_length (env : RefreshEnv) :
    ∀ (sched : List Nat) (st : SchedState),
      (runSchedule env sched st).phases.length = st.phases.length := by
  intro sched
  induction sched with
  | nil => intro st; rw [runSchedule]
  | cons j sched ih =>
    intro st
    rw [runSchedule]
    cases hj : st.phases[j]? with
    | none => exact ih st
    | some p =>
      refine (ih _).trans ?_
      simp

theorem runSchedule_inv (env : RefreshEnv) (tk : Token) (ct : CopilotToken)
    (hprov : env.provider = .ok (some tk)) (hrt : tk.refreshToken ≠ "")
    (hexp : Token.IsCopilotTokenExpired (some tk) env.now = true)
    (hex : env.exchangeResult = .ok ct)
    (hctv : CopilotToken.IsExpired (some ct) env.now = false) :
    ∀ (sched : List Nat) (st : SchedState),
      ColdRunInv ct st → ColdRunInv ct (runSchedule env sched st) := by
  have hnrcold : stepCaller env none CallerPhase.needRefresh =
      (.finished (.ok ct.token), some ct, 1) := by
    cases hsc : env.saverConfigured <;>
      simp [stepCaller, lockedRefresh, lockedRefreshMiss, hprov, hrt, hexp, hex, hsc]
  have hstartwarm : stepCaller env (some ct) CallerPhase.start =
      (.finished (.ok ct.token), some ct, 0) := by
    simp [stepCaller, readSection, hctv]
  have hnrwarm : stepCaller env (some ct) CallerPhase.needRefresh =
      (.finished (.ok ct.token), some ct, 0) := by
    simp [stepCaller, lockedRefresh, hctv]
  intro sched
  induction sched with
  | nil => intro st h; rw [runSchedule]; exact h
  | cons j sched ih =>
    intro st h
    rw [runSchedule]
    cases hj : st.phases[j]? with
    | none => exact ih st h
    | some p =>
      refine ih _ ?_
      have hpmem : p ∈ st.phases := List.getElem?_mem hj
      rcases h with ⟨hc, he, hall⟩ | ⟨hc, he, hall⟩
      · rcases hall p hpmem with hp | hp
        · subst hp
          rw [hc]
          left
          refine ⟨rfl, by simp [stepCaller, readSection, he], ?_⟩
          intro q hq
          rcases List.mem_or_eq_of_mem_set hq with hq | hq
          · exact hall q hq
          · right
            simpa [stepCaller, readSection] using hq
        · subst hp
          rw [hc, hnrcold]
          right
          refine ⟨rfl, by simp [he], ?_⟩
          intro q hq
          rcases List.mem_or_eq_of_mem_set hq with hq | hq
          · rcases hall q hq with hq | hq
            · exact Or.inl hq
            · exact Or.inr (Or.inl hq)
          · exact Or.inr (Or.inr hq)
      · rcases hall p hpmem with hp | hp | hp
        · subst hp
          rw [hc, hstartwarm]
          right
          refine ⟨rfl, by simp [he], ?_⟩
          intro q hq
          rcases List.mem_or_eq_of_mem_set hq with hq | hq
          · exact hall q hq
          · exact Or.inr (Or.inr hq)
        · subst hp
          rw [hc, hnrwarm]
          right
          refine ⟨rfl, by simp [he], ?_⟩
          intro q hq
          rcases List.mem_or_eq_of_mem_set hq with hq | hq
          · exact hall q hq
          · exact Or.inr (Or.inr hq)
        · subst hp
          rw [hc]
          right
          refine ⟨rfl, by simp [stepCaller, he], ?_⟩
          intro q hq
          rcases List.mem_or_eq_of_mem_set hq with hq | hq
          · exact hall q hq
          · right; right
            simpa [stepCaller] using hq

/-- C3: under the RWMutex serialization of `getValidToken`'s atomic
sections, any interleaving of callers started against a cold cache in which
every caller finishes performs exactly one token-exchange network call, and
every caller's call returns the token that exchange produced (values are
read and written whole under the lock, so no torn token is observable in
the model). -/
theorem cold_cache_single_exchange :
    ∀ (env : RefreshEnv) (tk : Token) (ct : CopilotToken) (n : Nat)
      (sched : List Nat),
      0 < n →
      env.provider = .ok (some tk) →
      tk.refreshToken ≠ "" →
      Token.IsCopilotTokenExpired (some tk) env.now = true →
      env.exchangeResult = .ok ct →
      CopilotToken.IsExpired (some ct) env.now = false →
      (∀ p ∈ (runSchedule env sched
          ⟨List.replicate n CallerPhase.start, none, 0⟩).phases,
        p.isFinished = true) →
      (runSchedule env sched
          ⟨List.replicate n CallerPhase.start, none, 0⟩).exchangeCalls = 1 ∧
      ∀ p ∈ (runSchedule env sched
          ⟨List.replicate n CallerPhase.start, none, 0⟩).phases,
        p = CallerPhase.finished (.ok ct.token) := by
  intro env tk ct n sched hn hprov hrt hexp hex hctv hfin
  have hinv0 : ColdRunInv ct ⟨List.replicate n CallerPhase.start, none, 0⟩ := by
    left
    refine ⟨rfl, rfl, ?_⟩
    intro p hp
    exact Or.inl (List.mem_replicate.mp hp).2
  have hinv := runSchedule_inv env tk ct hprov hrt hexp hex hctv sched
    ⟨List.replicate n CallerPhase.start, none, 0⟩ hinv0
  have hne : (runSchedule env sched
      ⟨List.replicate n CallerPhase.start, none, 0⟩).phases ≠ [] := by
    have hlen := runSchedule_length env sched
      ⟨List.replicate n CallerPhase.start, none, 0⟩
    intro hnil
    rw [hnil] at hlen
    simp at hlen
    omega
  rcases hinv with ⟨_, _, hall⟩ | ⟨_, he, hall⟩
  · obtain ⟨q, hq⟩ := List.exists_mem_of_ne_nil _ hne
    have := hfin q hq
    rcases hall q hq with h | h <;> subst h <;> simp [CallerPhase.isFinished] at this
  · refine ⟨he, ?_⟩
    intro p hp
    rcases hall p hp with h | h | h
    · subst h; simp [CallerPhase.isFinished] at hfin
      exact absurd (hfin _ hp) (by simp [CallerPhase.isFinished])
    · subst h
      exact absurd (hfin _ hp) (by simp [CallerPhase.isFinished])
    · exact h

/-- Witness for C3: two callers scheduled read, refresh, read against a cold
cache make exactly one exchange call. -/
theorem cold_cache_single_exchange_witness :
    (runSchedule
      ⟨0, .ok (some ⟨"", "gho_x", 3600, 9999, "", 0⟩), .ok ⟨"tid=z", 1000⟩,
        false, .ok ()⟩
      [0, 0, 1]
      ⟨List.replicate 2 CallerPhase.start, none, 0⟩).exchangeCalls = 1 :=
  (cold_cache_single_exchange
    ⟨0, .ok (some ⟨"", "gho_x", 3600, 9999, "", 0⟩), .ok ⟨"tid=z", 1000⟩,
      false, .ok ()⟩
    ⟨"", "gho_x", 3600, 9999, "", 0⟩ ⟨"tid=z", 1000⟩ 2 [0, 0, 1]
    (by decide) rfl (by decide) (by decide) rfl (by decide) (by decide)).1

end Crush
